import Mathlib

/-!
Shallow embedding of the dradtke/ecs-go entity-component-system core
(src/ecs.go).  Components are identified by their runtime type; we model the
closed universe of component types used by the tests and examples
(`Position`, `Velocity`, `Player`, `Target`) plus one extra type (`Health`)
so that theorems can quantify over genuinely distinct types.  Distinct named
Go types are mutually unassignable, so both `reflect.Type` equality (`==`)
and `reflect.Type.AssignableTo` reduce to type identity on this universe;
the embedding records that as equality of `CompTy` tags.

Machine integers: `Entity` is a Go `uint64` generated by
`atomic.AddUint64(&gid, 1)`, modelled as `Nat` with an explicit `% 2^64`
in `NewObject`.  Component payloads are Go `int`s, modelled as `Int`
(no claim depends on their overflow behaviour).

Go slice semantics matter for `Object.RemoveComponent` (ecs.go:217-224),
which splices the slice it is currently ranging over.  That is modelled
exactly: the range loop iterates over the original header (length `N`)
reading the shared backing array, and each splice
`append(cs[:i], cs[i+1:]...)` writes through the same backing array;
`cs[i+1:]` panics when `i+1` exceeds the current length, modelled as
`Option.none`.
-/

namespace Ecs

/-- Tags for the runtime types of components in the modelled universe. -/
inductive CompTy
  | position
  | velocity
  | player
  | target
  | health
  deriving DecidableEq

/-- Component values: a bag entry of an `Object`.  The payloads of
`position`, `velocity` and `health` model named Go `int` types. -/
inductive Comp
  | position (n : Int)
  | velocity (n : Int)
  | player
  | target
  | health (n : Int)
  deriving DecidableEq

/-- The runtime type of a component value (`reflect.TypeOf`). -/
def Comp.ty : Comp → CompTy
  | .position _ => .position
  | .velocity _ => .velocity
  | .player => .player
  | .target => .target
  | .health _ => .health

/-- Model of `reflect.Zero(t)` for a component type: the zero value of the type. -/
def zeroValue : CompTy → Comp
  | .position => .position 0
  | .velocity => .velocity 0
  | .player => .player
  | .target => .target
  | .health => .health 0

/-- Go `ecs.Entity` is `uint64`; equality is by value. -/
abbrev Entity := Nat

/-- Model of `ecs.Object` (ecs.go:183-186): an entity id plus an ordered,
insertion-order component bag. -/
structure Object where
  entity : Entity
  components : List Comp
  deriving DecidableEq

/-- Model of `ecs.NewObject` (ecs.go:188-193): allocates the next id from the
process-wide counter `gid` via `atomic.AddUint64(&gid, 1)` (wrap-around
at 2^64 made explicit) and stores the given components.  Returns the new
object together with the new counter value. -/
def NewObject (gid : Nat) (cs : List Comp) : Object × Nat :=
  ((⟨(gid + 1) % 2 ^ 64, cs⟩ : Object), (gid + 1) % 2 ^ 64)

/-- The scan loop of `Object.Component` over a component list. -/
def componentScan (t : CompTy) : List Comp → Option Comp
  | [] => none
  | c :: rest => if c.ty = t then some c else componentScan t rest

/-- Model of `Object.Component` (ecs.go:203-211): scan the bag in storage order for
the first component whose runtime type equals the type of the representative value (`reflect.TypeOf(c) == t`); `nil` (here `none`) when absent. -/
def Object.Component (ob : Object) (rep : Comp) : Option Comp :=
  componentScan rep.ty ob.components

/-- Model of `Object.AddComponent` (ecs.go:213-215): append to the bag. -/
def Object.AddComponent (ob : Object) (c : Comp) : Object :=
  { ob with components := ob.components ++ [c] }

/-- Model of `Object.getComponentValue` (ecs.go:226-234): first component whose
runtime type equals `t` exactly (`v.Type() == t`), as a `reflect.Value`
(invalid, here `none`, when absent). -/
def getComponentValue (t : CompTy) : List Comp → Option Comp
  | [] => none
  | c :: rest => if c.ty = t then some c else getComponentValue t rest

/-- One iteration of the `Object.RemoveComponent` range loop on the shared
backing array.  State: `(backing, l)` where `backing` is the full backing
array (its length never changes) and `l` the current length of
`ob.components`.  At index `i` the loop reads `backing[i]` (the range
header is stale, so indices up to the original length are read even after
splices).  On a type match it evaluates `append(cs[:i], cs[i+1:]...)`:
`cs[i+1:]` means `cs[i+1:l]` and panics (`none`) when `i+1 > l`; otherwise
the tail shifts left in place and `l` drops by one. -/
def removeComponentStep (t : CompTy) (st : List Comp × Nat) (i : Nat) :
    Option (List Comp × Nat) :=
  match st.1.get? i with
  | none => some st
  | some c =>
    if c.ty = t then
      if st.2 < i + 1 then none
      else
        some (st.1.take i ++ (st.1.drop (i + 1)).take (st.2 - (i + 1))
                ++ st.1.drop (st.2 - 1),
              st.2 - 1)
    else some st

/-- The `Object.RemoveComponent` loop (ecs.go:217-224) over a component
list: range over the original indices, splicing in place; `none` models
the slice-bounds panic. -/
def removeComponentList (t : CompTy) (cs : List Comp) : Option (List Comp) :=
  ((List.range cs.length).foldlM (removeComponentStep t) (cs, cs.length)).map
    (fun st => st.1.take st.2)

/-- Model of `Object.RemoveComponent` (ecs.go:217-224) on an object; `none` models
the slice-bounds panic. -/
def Object.RemoveComponent (ob : Object) (rep : Comp) : Option Object :=
  (removeComponentList rep.ty ob.components).map
    (fun cs => { ob with components := cs })

/-- Model of `ecs.World` (ecs.go:47-55): the ordered object collection.  The
registered systems and the mutex are not needed by any claim about a
single dispatch sweep; `OnError` presence is passed explicitly to
`handleSystemError`. -/
structure World where
  objects : List Object
  deriving DecidableEq

/-- Model of `NewWorld` (ecs.go:57-62). -/
def NewWorld : World := ⟨[]⟩

/-- Model of `World.AddObject` (ecs.go:64-69): append and return the entity id of the object. -/
def World.AddObject (w : World) (ob : Object) : World × Entity :=
  (⟨w.objects ++ [ob]⟩, ob.entity)

/-- The scan loop of `World.GetObject` (ecs.go:71-80): first object whose
entity id matches, else `nil`. -/
def getObjectScan (e : Entity) : List Object → Option Object
  | [] => none
  | ob :: rest => if ob.entity = e then some ob else getObjectScan e rest

/-- Model of `World.GetObject` (ecs.go:71-80). -/
def World.GetObject (w : World) (e : Entity) : Option Object :=
  getObjectScan e w.objects

/-- The loop of `World.RemoveObject` (ecs.go:82-91): splice out the first
object whose entity id matches and return immediately; no-op when absent. -/
def removeObjectScan (e : Entity) : List Object → List Object
  | [] => []
  | ob :: rest => if ob.entity = e then rest else ob :: removeObjectScan e rest

/-- Model of `World.RemoveObject` (ecs.go:82-91). -/
def World.RemoveObject (w : World) (e : Entity) : World :=
  ⟨removeObjectScan e w.objects⟩

/-!  Query iterators (`World.makeObjectIter`, ecs.go:124-179). -/

/-- Input types of a function-typed parameter.  `int` is the Go type `int`
(`reflect.Kind` `Int`); `str` stands for any type whose kind is not an
integer kind. -/
inductive InTy
  | int
  | str
  deriving DecidableEq

/-- Output types of a function-typed parameter.  `int` is exactly the Go type
`int` (compared with `==` against `intType`), `entity` exactly
`ecs.Entity`, `bool` the Go type `bool`; `comp t` is a component type, looked up
via `getComponentValue`. -/
inductive OutTy
  | int
  | entity
  | bool
  | comp (t : CompTy)
  deriving DecidableEq

/-- Model of `reflect.Type.Kind() == reflect.Bool` for an output type. -/
def OutTy.kindIsBool : OutTy → Bool
  | .bool => true
  | _ => false

/-- The shape of a function-typed parameter (its `reflect.Type`). -/
structure FuncSig where
  ins : List InTy
  outs : List OutTy
  deriving DecidableEq

/-- The construction failures of `World.makeObjectIter` (ecs.go:125-134). -/
inductive IterErr
  | tooManyArgs
  | tooFewReturns
  | lastNotBool
  deriving DecidableEq

/-- The error strings of `World.makeObjectIter` (ecs.go:125-134). -/
def iterErrMsg : IterErr → String
  | .tooManyArgs => "invalid signature: at most one argument expected"
  | .tooFewReturns => "invalid signature: at least two return values expected"
  | .lastNotBool => "invalid signature: last return value must be a boolean"

/-- The signature validation of `World.makeObjectIter` (ecs.go:125-134):
error when there is more than one input, fewer than two outputs, or the
the kind of the last output is not `Bool`.  (The kind of a single input is NOT
checked here; a non-`int` input is simply ignored by the returned
closure, ecs.go:143-145.) -/
def makeObjectIterCheck (sig : FuncSig) : Option IterErr :=
  if sig.ins.length > 1 then some .tooManyArgs
  else if sig.outs.length < 2 then some .tooFewReturns
  else if ¬ (sig.outs.getLastD .int).kindIsBool then some .lastNotBool
  else none

/-- Values produced by the outputs of a query iterator. -/
inductive OutVal
  | int (n : Nat)
  | entity (e : Entity)
  | bool (b : Bool)
  | comp (c : Comp)
  deriving DecidableEq

/-- The inner output-filling loop of the iterator closure
(ecs.go:149-162) for the non-final outputs: `int` outputs get the
absolute index of the candidate, `entity` outputs its entity id, any other
output type is looked up among the components of the candidate with
`getComponentValue`; an invalid lookup abandons the candidate
(`continue ol`), modelled as `none`.  (A non-final `bool` output is such
a lookup for a `bool`-typed component, which never matches in this
universe of components.) -/
def fillOuts (abs : Nat) (ob : Object) : List OutTy → Option (List OutVal)
  | [] => some []
  | ot :: rest =>
    match
      (match ot with
       | .int => some (OutVal.int abs)
       | .entity => some (OutVal.entity ob.entity)
       | .bool => none
       | .comp t => (getComponentValue t ob.components).map OutVal.comp)
    with
    | none => none
    | some v => (fillOuts abs ob rest).map (fun vs => v :: vs)

/-- The not-found epilogue of the iterator closure (ecs.go:169-176):
every output is zero-valued except `int` outputs, which are set to the
current length of the object collection. -/
def notFoundOuts (len : Nat) : List OutTy → List OutVal
  | [] => []
  | ot :: rest =>
    (match ot with
     | .int => OutVal.int len
     | .entity => OutVal.entity 0
     | .bool => OutVal.bool false
     | .comp t => OutVal.comp (zeroValue t)) :: notFoundOuts len rest

/-- The candidate scan of the iterator closure (ecs.go:147-167): walk the
remaining objects with their absolute indices; the first candidate whose
non-final outputs all fill yields those values plus a final `true`;
falling off the end yields the not-found outputs (`len` is the length of
the whole collection). -/
def iterScan (outs : List OutTy) (len : Nat) : List Object → Nat → List OutVal
  | [], _ => notFoundOuts len outs
  | ob :: rest, abs =>
    match fillOuts abs ob outs.dropLast with
    | some vs => vs ++ [OutVal.bool true]
    | none => iterScan outs len rest (abs + 1)

/-- One call of the closure built by `World.makeObjectIter`
(ecs.go:136-178).  The resume offset is the single argument when the
signature declares exactly one input of kind `Int`, else 0
(ecs.go:142-145).  `w.objects[start:]` panics when the offset exceeds the
length of the collection, modelled as `none`. -/
def objectIterCall (objs : List Object) (sig : FuncSig) (arg : Nat) :
    Option (List OutVal) :=
  if (if sig.ins = [InTy.int] then arg else 0) ≤ objs.length then
    some (iterScan sig.outs objs.length
      (objs.drop (if sig.ins = [InTy.int] then arg else 0))
      (if sig.ins = [InTy.int] then arg else 0))
  else none

/-!  Systems and the dispatch sweep (`System.tick`, ecs.go:236-350). -/

/-- The declared parameter types of the function of a system, as classified by
the dispatcher (ecs.go:272-311): the special types `*ecs.World`,
`ecs.Entity` and `time.Time`, function types, and component types. -/
inductive ParamTy
  | world
  | entity
  | time
  | func (sig : FuncSig)
  | comp (t : CompTy)
  deriving DecidableEq

/-- Resolved argument values (`argValues`, ecs.go:267). -/
inductive Arg
  | world
  | entity (e : Entity)
  | time (t : Nat)
  | iter (sig : FuncSig)
  | comp (c : Comp)
  deriving DecidableEq

/-- Return values of a system invocation: a component value to write
back, or an error-typed value (`none` = nil error). -/
inductive Rv
  | comp (c : Comp)
  | err (e : Option String)
  deriving DecidableEq

/-- Model of `ecs.System` (ecs.go:236-240): the callable plus the optional name
override.  `params` records the reflected parameter types of `Func`;
`funcName` records the name `runtime.FuncForPC` reports for `Func`
(ecs.go:324).  The `Ticker` field only affects scheduling, not a single
sweep, and is omitted. -/
structure System where
  Func : List Arg → List Rv
  Name : String
  funcName : String
  params : List ParamTy

/-- Derivation of the display name from the runtime function name
(ecs.go:324-327): keep everything after the last dot. -/
def deriveName (n : String) : String :=
  (n.splitOn ".").getLastD n

/-- The display name used for error reporting (ecs.go:322-328): the
configured override when non-empty, else the name derived from the
callable. -/
def effectiveName (s : System) : String :=
  if s.Name = "" then deriveName s.funcName else s.Name

/-- One delivery to the error handler (ecs.go:329-334): display name,
resolved argument values, error. -/
structure Call where
  name : String
  args : List Arg
  err : String
  deriving DecidableEq

/-- Model of `World.handleSystemError` (ecs.go:115-122): invoke `OnError` with the
delivery when configured (`inl`), else write a line to the log (`inr`). -/
def handleSystemError (onErrorConfigured : Bool) (c : Call) : Call ⊕ String :=
  if onErrorConfigured then .inl c
  else .inr ("system \"" ++ c.name ++ "\" returned error: " ++ c.err)

/-- The log line for a failed iterator construction (ecs.go:295). -/
def iterFailLog (e : IterErr) : String :=
  "failed to make object iter: " ++ iterErrMsg e

/-- Result of resolving one entity against the parameter list of a system
(the `tl` loop, ecs.go:274-312): all arguments resolved, or the entity
skipped because a component is missing (ecs.go:310-311), or skipped
because building a query iterator failed (ecs.go:294-296, which also
logs). -/
inductive Resolution
  | ok (args : List Arg)
  | noMatch
  | iterFail (e : IterErr)
  deriving DecidableEq

/-- Prepend a resolved argument to the result of resolving the remaining
parameters. -/
def consArg (a : Arg) : Resolution → Resolution
  | .ok args => .ok (a :: args)
  | r => r

/-- The component scan of the dispatcher (ecs.go:302-308): first
component whose runtime type is assignable to the parameter type
(type identity on this universe of named types). -/
def findAssignable (t : CompTy) : List Comp → Option Comp
  | [] => none
  | c :: rest => if c.ty = t then some c else findAssignable t rest

/-- The `tl` parameter-resolution loop (ecs.go:274-312) for one entity:
special types are injected, function types build a query iterator
(skipping the entity and logging when construction fails), any other
type takes the first assignable component (skipping the entity when
there is none). -/
def resolveParams (now : Nat) (ob : Object) : List ParamTy → Resolution
  | [] => .ok []
  | .world :: ps => consArg .world (resolveParams now ob ps)
  | .entity :: ps => consArg (.entity ob.entity) (resolveParams now ob ps)
  | .time :: ps => consArg (.time now) (resolveParams now ob ps)
  | .func sig :: ps =>
    match makeObjectIterCheck sig with
    | some e => .iterFail e
    | none => consArg (.iter sig) (resolveParams now ob ps)
  | .comp t :: ps =>
    match findAssignable t ob.components with
    | some c => consArg (.comp c) (resolveParams now ob ps)
    | none => .noMatch

/-- The write-back scan for one result (the inner loop of `rl`,
ecs.go:339-347): overwrite the first component slot whose type the
result is assignable to (type identity here); silently discard the
result when no slot matches. -/
def setFirstAssignable (r : Comp) : List Comp → List Comp
  | [] => []
  | c :: rest => if r.ty = c.ty then r :: rest else c :: setFirstAssignable r rest

/-- The `rl` write-back loop (ecs.go:338-348): apply each remaining
result in order; an error-typed value left in `results` is assignable to
no component type in this universe, so it is discarded. -/
def writeBack (cs : List Comp) : List Rv → List Comp
  | [] => cs
  | .comp r :: rest => writeBack (setFirstAssignable r cs) rest
  | .err _ :: rest => writeBack cs rest

/-- What processing one entity produced (ecs.go:272-349): the (possibly
written-back) object, the deliveries made to `handleSystemError`, the
entity ids the function of the system was actually invoked for, and the log
lines written directly (failed iterator constructions). -/
structure ObStep where
  object : Object
  calls : List Call
  invoked : List Entity
  logs : List String
  deriving DecidableEq

/-- Processing of one entity by the sweep (the body of the `ol` loop,
ecs.go:272-349): resolve the parameters; on success invoke the function;
when the trailing result is error-typed, strip it and deliver non-nil
errors to `handleSystemError` with the display name and the resolved
arguments (ecs.go:319-336); then write the remaining results back
(ecs.go:338-348). -/
def tickObject (s : System) (now : Nat) (ob : Object) : ObStep :=
  match resolveParams now ob s.params with
  | .noMatch => ⟨ob, [], [], []⟩
  | .iterFail e => ⟨ob, [], [], [iterFailLog e]⟩
  | .ok args =>
    let results := s.Func args
    if results.isEmpty then ⟨ob, [], [ob.entity], []⟩
    else
      match results.getLast? with
      | some (.err e) =>
        ⟨{ ob with components := writeBack ob.components results.dropLast },
         (match e with
          | some msg => [⟨effectiveName s, args, msg⟩]
          | none => []),
         [ob.entity], []⟩
      | _ =>
        ⟨{ ob with components := writeBack ob.components results },
         [], [ob.entity], []⟩

/-- The outcome of one dispatch sweep. -/
structure TickOut where
  objects : List Object
  calls : List Call
  invoked : List Entity
  logs : List String
  deriving DecidableEq

/-- Model of `System.tick` (ecs.go:263-350): one dispatch sweep over the object
collection in order.  (Systems that mutate the collection through the
world handle are outside this pure model; no claim needs them.) -/
def System.tick (s : System) (now : Nat) : List Object → TickOut
  | [] => ⟨[], [], [], []⟩
  | ob :: rest =>
    let step := tickObject s now ob
    let tail := s.tick now rest
    ⟨step.object :: tail.objects, step.calls ++ tail.calls,
     step.invoked ++ tail.invoked, step.logs ++ tail.logs⟩

/-- The system of the error-propagation scenario: declared parameters
`(Position, Velocity)`, a configured name override, and a function that
returns only a non-nil error. -/
def errOnlySystem (e : String) : System :=
  { Func := fun _ => [Rv.err (some e)]
    Name := "movement"
    funcName := "github.com/dradtke/ecs-go_test.TestError.func1"
    params := [ParamTy.comp CompTy.position, ParamTy.comp CompTy.velocity] }

/-!  Helper lemmas. -/

theorem componentScan_first (t : CompTy) (pre post : List Comp) (v : Comp)
    (hv : v.ty = t) (hpre : ∀ c ∈ pre, c.ty ≠ t) :
    componentScan t (pre ++ v :: post) = some v := by
  induction pre with
  | nil => simp [componentScan, hv]
  | cons c cs ih =>
    have hc : c.ty ≠ t := hpre c (by simp)
    simp only [List.cons_append, componentScan, if_neg hc]
    exact ih fun c2 h2 => hpre c2 (by simp [h2])

theorem setFirstAssignable_first (pre post : List Comp) (v r : Comp)
    (hv : r.ty = v.ty) (hpre : ∀ c ∈ pre, r.ty ≠ c.ty) :
    setFirstAssignable r (pre ++ v :: post) = pre ++ r :: post := by
  induction pre with
  | nil => simp [setFirstAssignable, hv]
  | cons c cs ih =>
    have hc : r.ty ≠ c.ty := hpre c (by simp)
    simp only [List.cons_append, setFirstAssignable, if_neg hc]
    exact congrArg (c :: ·) (ih fun c2 h2 => hpre c2 (by simp [h2]))

theorem removeObjectScan_absent (e : Entity) (l : List Object)
    (h : ∀ o ∈ l, o.entity ≠ e) : removeObjectScan e l = l := by
  induction l with
  | nil => rfl
  | cons ob rest ih =>
    have hob : ob.entity ≠ e := h ob (by simp)
    simp only [removeObjectScan, if_neg hob]
    exact congrArg (ob :: ·) (ih fun o h2 => h o (by simp [h2]))

theorem removeObjectScan_first (e : Entity) (l1 l2 : List Object) (ob : Object)
    (hob : ob.entity = e) (hl1 : ∀ o ∈ l1, o.entity ≠ e) :
    removeObjectScan e (l1 ++ ob :: l2) = l1 ++ l2 := by
  induction l1 with
  | nil => simp [removeObjectScan, hob]
  | cons o rest ih =>
    have ho : o.entity ≠ e := hl1 o (by simp)
    simp only [List.cons_append, removeObjectScan, if_neg ho]
    exact congrArg (o :: ·) (ih fun o2 h2 => hl1 o2 (by simp [h2]))

theorem getObjectScan_append (e : Entity) (l : List Object) (ob : Object)
    (hob : ob.entity = e) (hl : ∀ o ∈ l, o.entity ≠ e) :
    getObjectScan e (l ++ [ob]) = some ob := by
  induction l with
  | nil => simp [getObjectScan, hob]
  | cons o rest ih =>
    have ho : o.entity ≠ e := hl o (by simp)
    simp only [List.cons_append, getObjectScan, if_neg ho]
    exact ih fun o2 h2 => hl o2 (by simp [h2])

/-!  Claim theorems. -/

/-- Claim C1: with exactly one object holding `Position=1` and
`Velocity=2`, a one-shot system declaring `(Position, Velocity)` whose
function returns only a non-nil error makes exactly one delivery to the
error handler, carrying the configured name override and the resolved
arguments `[Position(1), Velocity(2)]`; the delivery reaches the
configured `OnError` callback; and the object (in particular its
`Position` component) is left unchanged, since no non-error result was
produced. -/
theorem error_only_system_handler_once (e : String) :
    (errOnlySystem e).tick 0 [⟨1, [Comp.position 1, Comp.velocity 2]⟩] =
      ⟨[⟨1, [Comp.position 1, Comp.velocity 2]⟩],
       [⟨"movement", [Arg.comp (Comp.position 1), Arg.comp (Comp.velocity 2)], e⟩],
       [1], []⟩
    ∧ handleSystemError true
        ⟨"movement", [Arg.comp (Comp.position 1), Arg.comp (Comp.velocity 2)], e⟩ =
      Sum.inl ⟨"movement", [Arg.comp (Comp.position 1), Arg.comp (Comp.velocity 2)], e⟩ :=
  ⟨rfl, rfl⟩

/-- Claim C3 (code bug): `Object.RemoveComponent` does not remove all
components of the type of the representative.  On `[Position(1), Position(2),
Velocity(3)]` it returns an object that still holds `Position(2)` (the
in-place splice shifts the second duplicate under the stale range
index), and on two adjacent duplicates `[Position(1), Position(2)]` the
re-slice `components[i+1:]` is out of range, a run-time panic. -/
theorem removeComponent_duplicates_bug :
    Object.RemoveComponent ⟨7, [Comp.position 1, Comp.position 2, Comp.velocity 3]⟩
        (Comp.position 0) =
      some ⟨7, [Comp.position 2, Comp.velocity 3]⟩
    ∧ (Object.Component ⟨7, [Comp.position 2, Comp.velocity 3]⟩ (Comp.position 0) =
        some (Comp.position 2))
    ∧ Object.RemoveComponent ⟨7, [Comp.position 1, Comp.position 2]⟩ (Comp.position 0) =
      none := by
  refine ⟨rfl, rfl, rfl⟩

/-- Claim C4: with duplicate components of one runtime type, lookup
(`Object.Component`) returns the first one in storage order, and result
write-back overwrites the slot of the first component whose type the result
is assignable to, leaving later duplicates untouched (`post` is
arbitrary and survives unchanged). -/
theorem duplicate_components_first_match (e : Entity) (pre post : List Comp)
    (v r rep : Comp) (hv : v.ty = rep.ty) (hr : r.ty = rep.ty)
    (hpre : ∀ c ∈ pre, c.ty ≠ rep.ty) :
    Object.Component ⟨e, pre ++ v :: post⟩ rep = some v
    ∧ setFirstAssignable r (pre ++ v :: post) = pre ++ r :: post
    ∧ writeBack (pre ++ v :: post) [Rv.comp r] = pre ++ r :: post := by
  have h1 : Object.Component ⟨e, pre ++ v :: post⟩ rep = some v :=
    componentScan_first rep.ty pre post v hv hpre
  have h2 : setFirstAssignable r (pre ++ v :: post) = pre ++ r :: post :=
    setFirstAssignable_first pre post v r (hr.trans hv.symm)
      (fun c hc => fun hEq => hpre c hc (hEq ▸ hr))
  exact ⟨h1, h2, h2⟩

/-- Witness for C4 at a concrete object with two `Position` duplicates:
lookup returns the first duplicate, write-back of `Position(9)`
overwrites only the first duplicate. -/
theorem duplicate_components_first_match_witness :
    Object.Component ⟨3, [Comp.velocity 7, Comp.position 1, Comp.position 2]⟩
        (Comp.position 0) =
      some (Comp.position 1)
    ∧ setFirstAssignable (Comp.position 9)
        [Comp.velocity 7, Comp.position 1, Comp.position 2] =
      [Comp.velocity 7, Comp.position 9, Comp.position 2]
    ∧ writeBack [Comp.velocity 7, Comp.position 1, Comp.position 2]
        [Rv.comp (Comp.position 9)] =
      [Comp.velocity 7, Comp.position 9, Comp.position 2] :=
  duplicate_components_first_match 3 [Comp.velocity 7] [Comp.position 2]
    (Comp.position 1) (Comp.position 9) (Comp.position 0) rfl rfl (by decide)

/-- Claim C9: `World.RemoveObject` is a no-op when no object carries the
identifier; otherwise it removes exactly the first object carrying it,
leaving every other object and their relative order unchanged. -/
theorem removeObject_first_or_noop (w : World) (e : Entity) :
    (e ∉ w.objects.map Object.entity → w.RemoveObject e = w)
    ∧ (∀ l1 ob l2, w.objects = l1 ++ ob :: l2 → ob.entity = e →
        (∀ o ∈ l1, o.entity ≠ e) → (w.RemoveObject e).objects = l1 ++ l2) := by
  constructor
  · intro h
    have habs : ∀ o ∈ w.objects, o.entity ≠ e := by
      intro o ho hEq
      exact h (hEq ▸ List.mem_map_of_mem Object.entity ho)
    cases w with
    | mk objs => exact congrArg World.mk (removeObjectScan_absent e objs habs)
  · intro l1 ob l2 hsplit hob hl1
    show removeObjectScan e w.objects = l1 ++ l2
    rw [hsplit]
    exact removeObjectScan_first e l1 l2 ob hob hl1

/-- Witness for C9: removing an absent id (5) is a no-op; removing id 2
from a collection with two objects carrying it removes only the first. -/
theorem removeObject_first_or_noop_witness :
    (World.RemoveObject ⟨[⟨1, []⟩, ⟨2, []⟩, ⟨2, [Comp.player]⟩]⟩ 5 =
      ⟨[⟨1, []⟩, ⟨2, []⟩, ⟨2, [Comp.player]⟩]⟩)
    ∧ (World.RemoveObject ⟨[⟨1, []⟩, ⟨2, []⟩, ⟨2, [Comp.player]⟩]⟩ 2).objects =
      [⟨1, []⟩, ⟨2, [Comp.player]⟩] :=
  ⟨(removeObject_first_or_noop ⟨[⟨1, []⟩, ⟨2, []⟩, ⟨2, [Comp.player]⟩]⟩ 5).1 (by decide),
   (removeObject_first_or_noop ⟨[⟨1, []⟩, ⟨2, []⟩, ⟨2, [Comp.player]⟩]⟩ 2).2
     [⟨1, []⟩] ⟨2, []⟩ [⟨2, [Comp.player]⟩] rfl rfl (by decide)⟩

/-- Claim C10: `World.AddObject` returns the entity id stored in the
object; when no other object carries that id, `World.GetObject` with the
returned id yields that very object; and the counter in `NewObject`
yields `(gid+1) mod 2^64`, which (absent wrap-around) differs from every
id no larger than the old counter value. -/
theorem addObject_getObject_roundtrip (w : World) (ob : Object) :
    (w.AddObject ob).2 = ob.entity
    ∧ ((∀ o ∈ w.objects, o.entity ≠ ob.entity) →
        (w.AddObject ob).1.GetObject ob.entity = some ob)
    ∧ (∀ g cs, (NewObject g cs).1.entity = (g + 1) % 2 ^ 64
        ∧ (g + 1 < 2 ^ 64 → ∀ o ∈ w.objects, o.entity ≤ g →
            o.entity ≠ (NewObject g cs).1.entity)) := by
  refine ⟨rfl, ?_, ?_⟩
  · intro h
    exact getObjectScan_append ob.entity w.objects ob rfl h
  · intro g cs
    refine ⟨rfl, ?_⟩
    intro hlt o _ hle
    show o.entity ≠ (g + 1) % 2 ^ 64
    rw [Nat.mod_eq_of_lt hlt]
    exact Nat.ne_of_lt (Nat.lt_of_le_of_lt hle (Nat.lt_succ_self g))

/-- A dispatch sweep processes each object independently, in order. -/
theorem tick_append (s : System) (now : Nat) (l1 l2 : List Object) :
    s.tick now (l1 ++ l2) =
      ⟨(s.tick now l1).objects ++ (s.tick now l2).objects,
       (s.tick now l1).calls ++ (s.tick now l2).calls,
       (s.tick now l1).invoked ++ (s.tick now l2).invoked,
       (s.tick now l1).logs ++ (s.tick now l2).logs⟩ := by
  induction l1 with
  | nil => rfl
  | cons ob rest ih => simp [System.tick, ih]

/-- An invocation whose trailing result is a non-nil error still writes
its other results back and still yields one handler delivery. -/
theorem tickObject_error (s : System) (now : Nat) (ob : Object)
    (args : List Arg) (rs : List Rv) (e : String)
    (hres : resolveParams now ob s.params = .ok args)
    (hrun : s.Func args = rs ++ [Rv.err (some e)]) :
    tickObject s now ob =
      ⟨{ ob with components := writeBack ob.components rs },
       [⟨effectiveName s, args, e⟩], [ob.entity], []⟩ := by
  simp only [tickObject, hres, hrun]
  have hne : ((rs ++ [Rv.err (some e)]).isEmpty) = false := by
    cases rs <;> rfl
  rw [if_neg (by simp [hne])]
  rw [List.getLast?_concat, List.dropLast_concat]

/-- Claim C2: a non-nil trailing error does not abort the sweep.  For a
sweep over `l1 ++ ob :: l2` where resolving `ob` succeeds and the
invocation returns `rs` followed by a non-nil error: the error is routed
to the error handler with the resolved arguments, the non-error results
`rs` are still written back into the components of `ob` (no rollback), and
the objects of `l2` are still processed exactly as they would be on
their own. -/
theorem error_does_not_abort_sweep (s : System) (now : Nat)
    (l1 l2 : List Object) (ob : Object) (args : List Arg) (rs : List Rv)
    (e : String) (hres : resolveParams now ob s.params = .ok args)
    (hrun : s.Func args = rs ++ [Rv.err (some e)]) :
    s.tick now (l1 ++ ob :: l2) =
      ⟨(s.tick now l1).objects ++
         { ob with components := writeBack ob.components rs } ::
           (s.tick now l2).objects,
       (s.tick now l1).calls ++
         (⟨effectiveName s, args, e⟩ : Call) :: (s.tick now l2).calls,
       (s.tick now l1).invoked ++ ob.entity :: (s.tick now l2).invoked,
       (s.tick now l1).logs ++ (s.tick now l2).logs⟩ := by
  rw [tick_append]
  have hmid : s.tick now (ob :: l2) =
      ⟨{ ob with components := writeBack ob.components rs } ::
         (s.tick now l2).objects,
       (⟨effectiveName s, args, e⟩ : Call) :: (s.tick now l2).calls,
       ob.entity :: (s.tick now l2).invoked,
       (s.tick now l2).logs⟩ := by
    simp [System.tick, tickObject_error s now ob args rs e hres hrun]
  rw [hmid]

/-- Witness for C2: a `Position`-requiring system that moves every
matching object to `Position(99)` and errors.  The first object (no
`Position`) is skipped, the second errors but is written back, and the
third — after the error — is still invoked and written back; two handler
deliveries result. -/
theorem error_does_not_abort_sweep_witness :
    (⟨fun _ => [Rv.comp (Comp.position 99), Rv.err (some "boom")], "mv", "f",
       [ParamTy.comp CompTy.position]⟩ : System).tick 0
      ([⟨1, [Comp.velocity 1]⟩] ++ ⟨2, [Comp.position 1]⟩ :: [⟨3, [Comp.position 2]⟩]) =
      ⟨[⟨1, [Comp.velocity 1]⟩, ⟨2, [Comp.position 99]⟩, ⟨3, [Comp.position 99]⟩],
       [⟨"mv", [Arg.comp (Comp.position 1)], "boom"⟩,
        ⟨"mv", [Arg.comp (Comp.position 2)], "boom"⟩],
       [2, 3], []⟩ :=
  error_does_not_abort_sweep
    ⟨fun _ => [Rv.comp (Comp.position 99), Rv.err (some "boom")], "mv", "f",
      [ParamTy.comp CompTy.position]⟩
    0 [⟨1, [Comp.velocity 1]⟩] [⟨3, [Comp.position 2]⟩] ⟨2, [Comp.position 1]⟩
    [Arg.comp (Comp.position 1)] [Rv.comp (Comp.position 99)] "boom" rfl rfl

/-- A parameter type that requires no data component: the special types,
and function types whose query-iterator construction succeeds. -/
def requiresNoComponent : ParamTy → Bool
  | .comp _ => false
  | .func sig => (makeObjectIterCheck sig).isNone
  | _ => true

/-- Resolution always succeeds when no parameter requires a component. -/
theorem resolveParams_ok_of_noComponent (now : Nat) (ob : Object)
    (ps : List ParamTy) (h : ∀ p ∈ ps, requiresNoComponent p = true) :
    ∃ args, resolveParams now ob ps = .ok args := by
  induction ps with
  | nil => exact ⟨[], rfl⟩
  | cons p rest ih =>
    obtain ⟨args, hargs⟩ := ih fun p2 h2 => h p2 (by simp [h2])
    have hp := h p (by simp)
    cases p with
    | world => exact ⟨.world :: args, by simp [resolveParams, hargs, consArg]⟩
    | entity => exact ⟨.entity ob.entity :: args, by simp [resolveParams, hargs, consArg]⟩
    | time => exact ⟨.time now :: args, by simp [resolveParams, hargs, consArg]⟩
    | func sig =>
      have hchk : makeObjectIterCheck sig = none := by
        simpa [requiresNoComponent, Option.isNone_iff_eq_none] using hp
      exact ⟨.iter sig :: args, by simp [resolveParams, hchk, hargs, consArg]⟩
    | comp t => simp [requiresNoComponent] at hp

/-- A successfully resolved object is invoked exactly once. -/
theorem tickObject_invoked_of_ok (s : System) (now : Nat) (ob : Object)
    (args : List Arg) (hres : resolveParams now ob s.params = .ok args) :
    (tickObject s now ob).invoked = [ob.entity] := by
  simp only [tickObject, hres]
  split
  · rfl
  · split <;> rfl

/-- Claim C8: a system whose parameter list requires zero data
components is invoked exactly once per object of the collection during a
sweep — objects with an empty component bag included — and not once
globally. -/
theorem no_component_system_once_per_object (s : System) (now : Nat)
    (objs : List Object) (h : ∀ p ∈ s.params, requiresNoComponent p = true) :
    (s.tick now objs).invoked = objs.map Object.entity := by
  induction objs with
  | nil => rfl
  | cons ob rest ih =>
    obtain ⟨args, hargs⟩ := resolveParams_ok_of_noComponent now ob s.params h
    simp [System.tick, tickObject_invoked_of_ok s now ob args hargs, ih]

/-- Witness for C8: a system taking only the special parameters
`(*World, Entity, time.Time)` is invoked once for the empty-bag object 5
and once for object 6 — twice in total, not once globally. -/
theorem no_component_system_once_per_object_witness :
    ((⟨fun _ => [], "", "pkg.noop", [ParamTy.world, ParamTy.entity, ParamTy.time]⟩ :
        System).tick 0 [⟨5, []⟩, ⟨6, [Comp.position 1]⟩]).invoked = [5, 6] :=
  no_component_system_once_per_object
    ⟨fun _ => [], "", "pkg.noop", [ParamTy.world, ParamTy.entity, ParamTy.time]⟩
    0 [⟨5, []⟩, ⟨6, [Comp.position 1]⟩] (by decide)

/-- Model of `reflect.Kind` of an input type is an integer kind. -/
def InTy.isIntegerKind : InTy → Bool
  | .int => true
  | .str => false

/-- Modelled from the words of the claim (used only to refute them): the
claimed failure condition for query-iterator construction — more than
one input, an input that is not of an integer kind, fewer than two
outputs, or a last output that is not boolean. -/
def claimedIterFailure (sig : FuncSig) : Bool :=
  decide (sig.ins.length > 1) ||
    (match sig.ins with
     | [i] => !i.isIntegerKind
     | _ => false) ||
    decide (sig.outs.length < 2) ||
    !(sig.outs.getLastD OutTy.int).kindIsBool

/-- Counterexample to claim C6 as stated: the function type with the
single non-integer input `string` and outputs `(Target, bool)` violates
the claimed shape contract, yet `World.makeObjectIter` accepts it —
construction does not fail on a non-integer input. -/
theorem iter_shape_check_counterexample :
    claimedIterFailure ⟨[InTy.str], [OutTy.comp CompTy.target, OutTy.bool]⟩ = true
    ∧ makeObjectIterCheck ⟨[InTy.str], [OutTy.comp CompTy.target, OutTy.bool]⟩ =
      none := by
  decide

/-- Claim C6 (amended): query-iterator construction fails exactly when
the function type has more than one input, fewer than two outputs, or a
last output whose kind is not boolean — a single non-integer input does
not fail (the resume offset merely defaults to 0).  On such a failure
the dispatcher logs the construction failure and treats every entity it
reaches with that parameter as non-matching for the tick, moving on
without invoking the system or touching the objects. -/
theorem iter_shape_check_amended :
    (∀ sig : FuncSig, (makeObjectIterCheck sig).isSome =
      (decide (sig.ins.length > 1) || decide (sig.outs.length < 2) ||
        !(sig.outs.getLastD OutTy.int).kindIsBool))
    ∧ (∀ (s : System) (now : Nat) (sig : FuncSig) (err : IterErr)
        (ps : List ParamTy) (objs : List Object),
        makeObjectIterCheck sig = some err → s.params = ParamTy.func sig :: ps →
        s.tick now objs = ⟨objs, [], [], objs.map fun _ => iterFailLog err⟩) := by
  constructor
  · intro sig
    simp only [makeObjectIterCheck]
    split_ifs <;> simp_all [List.getLastD_eq_getLast?]
  · intro s now sig err ps objs herr hparams
    induction objs with
    | nil => rfl
    | cons ob rest ih =>
      simp [System.tick, tickObject, hparams, resolveParams, herr, ih]

/-- Witness for C6 (amended): the function type with no inputs and the
single output `bool` has too few outputs, so construction fails and a
sweep of a one-object world skips the object, logging once. -/
theorem iter_shape_check_amended_witness :
    (⟨fun _ => [], "x", "y", [ParamTy.func ⟨[], [OutTy.bool]⟩]⟩ : System).tick 0
      [⟨1, []⟩] =
      ⟨[⟨1, []⟩], [], [], [iterFailLog IterErr.tooFewReturns]⟩ :=
  iter_shape_check_amended.2
    ⟨fun _ => [], "x", "y", [ParamTy.func ⟨[], [OutTy.bool]⟩]⟩ 0
    ⟨[], [OutTy.bool]⟩ IterErr.tooFewReturns [] [⟨1, []⟩] rfl rfl

/-- The value §4.2 of the spec says the dispatcher injects for one
declared parameter: the special values for the special types, a query
iterator for function types (when construction succeeds), and the first
assignable component for component types (`none` when the entity cannot
supply the parameter). -/
def injectedArg (now : Nat) (ob : Object) : ParamTy → Option Arg
  | .world => some .world
  | .entity => some (.entity ob.entity)
  | .time => some (.time now)
  | .func sig => if makeObjectIterCheck sig = none then some (.iter sig) else none
  | .comp t => (findAssignable t ob.components).map .comp

/-- Inversion for `consArg`. -/
theorem consArg_ok (a : Arg) (r : Resolution) (args : List Arg)
    (h : consArg a r = .ok args) :
    ∃ args2, r = .ok args2 ∧ args = a :: args2 := by
  cases r with
  | ok args2 => exact ⟨args2, rfl, (Resolution.ok.injEq _ _ ▸ h).symm⟩
  | noMatch => exact absurd h (by simp [consArg])
  | iterFail e => exact absurd h (by simp [consArg])

/-- Successful resolution injects, for every parameter in order, exactly
the value described by `injectedArg`. -/
theorem resolveParams_ok_inject (now : Nat) (ob : Object) (ps : List ParamTy)
    (args : List Arg) (h : resolveParams now ob ps = .ok args) :
    List.Forall₂ (fun p a => injectedArg now ob p = some a) ps args := by
  induction ps generalizing args with
  | nil =>
    have : args = [] := by simpa [resolveParams] using h.symm
    subst this
    exact .nil
  | cons p rest ih =>
    cases p with
    | world =>
      obtain ⟨args2, h2, rfl⟩ := consArg_ok _ _ _ h
      exact .cons (by simp [injectedArg]) (ih args2 h2)
    | entity =>
      obtain ⟨args2, h2, rfl⟩ := consArg_ok _ _ _ h
      exact .cons (by simp [injectedArg]) (ih args2 h2)
    | time =>
      obtain ⟨args2, h2, rfl⟩ := consArg_ok _ _ _ h
      exact .cons (by simp [injectedArg]) (ih args2 h2)
    | func sig =>
      cases hchk : makeObjectIterCheck sig with
      | some e => rw [resolveParams, hchk] at h; exact absurd h (by simp)
      | none =>
        rw [resolveParams, hchk] at h
        obtain ⟨args2, h2, rfl⟩ := consArg_ok _ _ _ h
        exact .cons (by simp [injectedArg, hchk]) (ih args2 h2)
    | comp t =>
      cases hfa : findAssignable t ob.components with
      | none => rw [resolveParams, hfa] at h; exact absurd h (by simp)
      | some c =>
        rw [resolveParams, hfa] at h
        obtain ⟨args2, h2, rfl⟩ := consArg_ok _ _ _ h
        exact .cons (by simp [injectedArg, hfa]) (ih args2 h2)

/-- The component scan of the dispatcher finds the first component of the
wanted type. -/
theorem findAssignable_first (t : CompTy) (pre post : List Comp) (c : Comp)
    (hc : c.ty = t) (hpre : ∀ c2 ∈ pre, c2.ty ≠ t) :
    findAssignable t (pre ++ c :: post) = some c := by
  induction pre with
  | nil => simp [findAssignable, hc]
  | cons c0 cs ih =>
    have h0 : c0.ty ≠ t := hpre c0 (by simp)
    simp only [List.cons_append, findAssignable, if_neg h0]
    exact ih fun c2 h2 => hpre c2 (by simp [h2])

/-- When some component parameter has no assignable component in the
component bag of the entity, resolution never succeeds. -/
theorem resolveParams_missing (now : Nat) (ob : Object) (ps : List ParamTy)
    (t : CompTy) (hmem : ParamTy.comp t ∈ ps)
    (hnone : findAssignable t ob.components = none) :
    ∀ args, resolveParams now ob ps ≠ .ok args := by
  induction ps with
  | nil => cases hmem
  | cons p rest ih =>
    intro args h
    rcases List.mem_cons.1 hmem with hhead | htail
    · subst hhead
      rw [resolveParams, hnone] at h
      cases h
    · cases p with
      | world =>
        obtain ⟨args2, h2, _⟩ := consArg_ok _ _ _ h
        exact ih htail args2 h2
      | entity =>
        obtain ⟨args2, h2, _⟩ := consArg_ok _ _ _ h
        exact ih htail args2 h2
      | time =>
        obtain ⟨args2, h2, _⟩ := consArg_ok _ _ _ h
        exact ih htail args2 h2
      | func sig =>
        cases hchk : makeObjectIterCheck sig with
        | some e => rw [resolveParams, hchk] at h; cases h
        | none =>
          rw [resolveParams, hchk] at h
          obtain ⟨args2, h2, _⟩ := consArg_ok _ _ _ h
          exact ih htail args2 h2
      | comp t2 =>
        cases hfa : findAssignable t2 ob.components with
        | none => rw [resolveParams, hfa] at h; cases h
        | some c =>
          rw [resolveParams, hfa] at h
          obtain ⟨args2, h2, _⟩ := consArg_ok _ _ _ h
          exact ih htail args2 h2

/-- Claim C5: during a sweep, every non-special declared parameter is
resolved by scanning the components of the entity in storage order and
injecting the first assignable one (first two conjuncts); when some
component parameter has no match, the system is not invoked for that
entity at all — its object is untouched, no handler delivery is made —
and the sweep continues with the remaining entities exactly as it would
on them alone. -/
theorem component_param_resolution (s : System) (now : Nat) (ob : Object)
    (rest : List Object) :
    (∀ args, resolveParams now ob s.params = .ok args →
        List.Forall₂ (fun p a => injectedArg now ob p = some a) s.params args)
    ∧ (∀ (t : CompTy) (pre post : List Comp) (c : Comp),
        ob.components = pre ++ c :: post → c.ty = t → (∀ c2 ∈ pre, c2.ty ≠ t) →
        findAssignable t ob.components = some c)
    ∧ ((∃ t, ParamTy.comp t ∈ s.params ∧ findAssignable t ob.components = none) →
        (tickObject s now ob).object = ob ∧ (tickObject s now ob).invoked = []
        ∧ (tickObject s now ob).calls = []
        ∧ s.tick now (ob :: rest) =
            ⟨ob :: (s.tick now rest).objects, (s.tick now rest).calls,
             (s.tick now rest).invoked,
             (tickObject s now ob).logs ++ (s.tick now rest).logs⟩) := by
  refine ⟨resolveParams_ok_inject now ob s.params, ?_, ?_⟩
  · intro t pre post c hsplit hc hpre
    rw [hsplit]
    exact findAssignable_first t pre post c hc hpre
  · rintro ⟨t, hmem, hnone⟩
    have hnotok := resolveParams_missing now ob s.params t hmem hnone
    cases hres : resolveParams now ob s.params with
    | ok args => exact absurd hres (hnotok args)
    | noMatch => simp [System.tick, tickObject, hres]
    | iterFail e => simp [System.tick, tickObject, hres]

/-- Witness for C5: for a system declaring `(Entity, Position)`, the
entity parameter gets the id and the position parameter the first
`Position` in storage order (skipping the leading `Velocity`); an object
with no `Position` is skipped without invocation while the rest of the
sweep proceeds. -/
theorem component_param_resolution_witness :
    List.Forall₂
      (fun p a => injectedArg 0 ⟨9, [Comp.velocity 1, Comp.position 4, Comp.position 5]⟩ p = some a)
      [ParamTy.entity, ParamTy.comp CompTy.position]
      [Arg.entity 9, Arg.comp (Comp.position 4)]
    ∧ findAssignable CompTy.position [Comp.velocity 1, Comp.position 4, Comp.position 5] =
      some (Comp.position 4)
    ∧ ((⟨fun _ => [], "n", "f", [ParamTy.entity, ParamTy.comp CompTy.position]⟩ :
          System).tick 0 [⟨8, [Comp.velocity 2]⟩]).invoked = [] := by
  refine ⟨?_, ?_, ?_⟩
  · exact (component_param_resolution
      ⟨fun _ => [], "n", "f", [ParamTy.entity, ParamTy.comp CompTy.position]⟩ 0
      ⟨9, [Comp.velocity 1, Comp.position 4, Comp.position 5]⟩ []).1
      [Arg.entity 9, Arg.comp (Comp.position 4)] rfl
  · exact (component_param_resolution
      ⟨fun _ => [], "n", "f", [ParamTy.entity, ParamTy.comp CompTy.position]⟩ 0
      ⟨9, [Comp.velocity 1, Comp.position 4, Comp.position 5]⟩ []).2.1
      CompTy.position [Comp.velocity 1] [Comp.position 5] (Comp.position 4)
      rfl rfl (by decide)
  · have h := (component_param_resolution
      ⟨fun _ => [], "n", "f", [ParamTy.entity, ParamTy.comp CompTy.position]⟩ 0
      ⟨8, [Comp.velocity 2]⟩ []).2.2 ⟨CompTy.position, by decide, rfl⟩
    rw [h.2.2.2]
    simpa using h.2.1

/-- Whether one output type of a query iterator can be satisfied by a
candidate entity (§4.3): index and entity outputs always can, component
outputs need a matching component, a non-final `bool` output never
matches a component. -/
def outSatisfied (ob : Object) : OutTy → Bool
  | .int => true
  | .entity => true
  | .bool => false
  | .comp t => (getComponentValue t ob.components).isSome

/-- The matching condition of the claim: every non-final output type of the
iterator is satisfied by the candidate. -/
def objectMatches (outs : List OutTy) (ob : Object) : Bool :=
  outs.dropLast.all (outSatisfied ob)

/-- The description in the claim of a populated output at a match: positional
index, entity id, or the first matching component in storage order. -/
def matchedOut (idx : Nat) (ob : Object) : OutTy → OutVal
  | .int => .int idx
  | .entity => .entity ob.entity
  | .bool => .bool false
  | .comp t => .comp ((getComponentValue t ob.components).getD (zeroValue t))

/-- The description in the claim of an output when nothing matches: zero
values except index outputs, which carry the length of the collection. -/
def notFoundVal (len : Nat) : OutTy → OutVal
  | .int => .int len
  | .entity => .entity 0
  | .bool => .bool false
  | .comp t => .comp (zeroValue t)

/-- Filling outputs succeeds on a satisfying candidate and produces the
described values. -/
theorem fillOuts_of_all (abs : Nat) (ob : Object) (l : List OutTy)
    (h : l.all (outSatisfied ob) = true) :
    fillOuts abs ob l = some (l.map (matchedOut abs ob)) := by
  induction l with
  | nil => rfl
  | cons ot rest ih =>
    rw [List.all_cons, Bool.and_eq_true] at h
    have hrest := ih h.2
    cases ot with
    | int => simp [fillOuts, hrest, matchedOut]
    | entity => simp [fillOuts, hrest, matchedOut]
    | bool => simp [outSatisfied] at h
    | comp t =>
      obtain ⟨c, hc⟩ := Option.isSome_iff_exists.1 (by simpa [outSatisfied] using h.1)
      simp [fillOuts, hc, hrest, matchedOut]

/-- Filling outputs fails on a non-satisfying candidate. -/
theorem fillOuts_of_not_all (abs : Nat) (ob : Object) (l : List OutTy)
    (h : l.all (outSatisfied ob) = false) :
    fillOuts abs ob l = none := by
  induction l with
  | nil => simp at h
  | cons ot rest ih =>
    rw [List.all_cons, Bool.and_eq_false_iff] at h
    cases h with
    | inl h1 =>
      cases ot with
      | int => simp [outSatisfied] at h1
      | entity => simp [outSatisfied] at h1
      | bool => rfl
      | comp t =>
        cases hc : getComponentValue t ob.components with
        | none => simp [fillOuts, hc]
        | some c => simp [outSatisfied, hc] at h1
    | inr h2 =>
      have hrest := ih h2
      cases ot with
      | int => simp [fillOuts, hrest]
      | entity => simp [fillOuts, hrest]
      | bool => rfl
      | comp t => cases hc : getComponentValue t ob.components <;> simp [fillOuts, hc, hrest]

/-- The candidate scan skips a prefix of non-matching candidates,
advancing the absolute index past it. -/
theorem iterScan_skip (outs : List OutTy) (len : Nat) (l1 rest : List Object)
    (abs : Nat) (h : ∀ o ∈ l1, objectMatches outs o = false) :
    iterScan outs len (l1 ++ rest) abs = iterScan outs len rest (abs + l1.length) := by
  induction l1 generalizing abs with
  | nil => rfl
  | cons o l1 ih =>
    have ho : fillOuts abs o outs.dropLast = none :=
      fillOuts_of_not_all abs o outs.dropLast (h o (by simp))
    rw [List.cons_append, iterScan, ho]
    rw [ih (abs + 1) fun o2 h2 => h o2 (by simp [h2])]
    have h3 : abs + 1 + l1.length = abs + (l1.length + 1) := by omega
    rw [List.length_cons, h3]

/-- The candidate scan falls through to the not-found outputs when no
candidate matches. -/
theorem iterScan_none (outs : List OutTy) (len : Nat) (l : List Object)
    (abs : Nat) (h : ∀ o ∈ l, objectMatches outs o = false) :
    iterScan outs len l abs = notFoundOuts len outs := by
  induction l generalizing abs with
  | nil => rfl
  | cons o l ih =>
    have ho : fillOuts abs o outs.dropLast = none :=
      fillOuts_of_not_all abs o outs.dropLast (h o (by simp))
    rw [iterScan, ho]
    exact ih (abs + 1) fun o2 h2 => h o2 (by simp [h2])

/-- The not-found outputs are exactly the claimed per-output values. -/
theorem notFoundOuts_eq_map (len : Nat) (outs : List OutTy) :
    notFoundOuts len outs = outs.map (notFoundVal len) := by
  induction outs with
  | nil => rfl
  | cons ot rest ih => cases ot <;> simp [notFoundOuts, notFoundVal, ih]

/-- Claim C7: a built query iterator called with resume offset `k` (0
when it takes no argument, first conjunct) scans the collection in order
from index `k`; the first object from there on satisfying every
non-index, non-entity output yields the populated outputs (index,
entity id, first matching component for each) plus `found = true`
(second conjunct); when no object from `k` to the end satisfies them,
every output is its zero value except `int` outputs, which carry the
length of the collection, and the final output is `found = false` (third
conjunct). -/
theorem query_iterator_scan (objs : List Object) (outs : List OutTy) (k : Nat)
    (hk : k ≤ objs.length)
    (hsig : makeObjectIterCheck ⟨[InTy.int], outs⟩ = none) :
    (∀ a, objectIterCall objs ⟨[], outs⟩ a = objectIterCall objs ⟨[InTy.int], outs⟩ 0)
    ∧ (∀ l1 ob l2, objs.drop k = l1 ++ ob :: l2 →
        (∀ o ∈ l1, objectMatches outs o = false) → objectMatches outs ob = true →
        objectIterCall objs ⟨[InTy.int], outs⟩ k =
          some (outs.dropLast.map (matchedOut (k + l1.length) ob) ++ [OutVal.bool true]))
    ∧ ((∀ o ∈ objs.drop k, objectMatches outs o = false) →
        objectIterCall objs ⟨[InTy.int], outs⟩ k =
          some (outs.map (notFoundVal objs.length))) := by
  refine ⟨fun a => rfl, ?_, ?_⟩
  · intro l1 ob l2 hdrop hl1 hob
    show (if k ≤ objs.length then
        some (iterScan outs objs.length (objs.drop k) k) else none) =
      some (outs.dropLast.map (matchedOut (k + l1.length) ob) ++ [OutVal.bool true])
    rw [if_pos hk, hdrop, iterScan_skip outs objs.length l1 (ob :: l2) k hl1, iterScan,
      fillOuts_of_all (k + l1.length) ob outs.dropLast hob]
  · intro h
    show (if k ≤ objs.length then
        some (iterScan outs objs.length (objs.drop k) k) else none) =
      some (outs.map (notFoundVal objs.length))
    rw [if_pos hk, iterScan_none outs objs.length (objs.drop k) k h, notFoundOuts_eq_map]

/-- Witness for C7: in a two-object collection where only the second
object carries `Target`, the iterator `(int, Entity, Target, bool)`
called at offset 0 finds index 1, entity 2 and the `Target` component
with `found = true`; called at offset 2 (past the end) it reports the
collection length, zero values and `found = false`. -/
theorem query_iterator_scan_witness :
    objectIterCall [⟨1, [Comp.player]⟩, ⟨2, [Comp.target, Comp.position 5]⟩]
        ⟨[InTy.int], [OutTy.int, OutTy.entity, OutTy.comp CompTy.target, OutTy.bool]⟩ 0 =
      some [OutVal.int 1, OutVal.entity 2, OutVal.comp Comp.target, OutVal.bool true]
    ∧ objectIterCall [⟨1, [Comp.player]⟩, ⟨2, [Comp.target, Comp.position 5]⟩]
        ⟨[InTy.int], [OutTy.int, OutTy.entity, OutTy.comp CompTy.target, OutTy.bool]⟩ 2 =
      some [OutVal.int 2, OutVal.entity 0, OutVal.comp Comp.target, OutVal.bool false] := by
  constructor
  · exact (query_iterator_scan [⟨1, [Comp.player]⟩, ⟨2, [Comp.target, Comp.position 5]⟩]
      [OutTy.int, OutTy.entity, OutTy.comp CompTy.target, OutTy.bool] 0
      (by decide) rfl).2.1 [⟨1, [Comp.player]⟩] ⟨2, [Comp.target, Comp.position 5]⟩ []
      rfl (by decide) (by decide)
  · exact (query_iterator_scan [⟨1, [Comp.player]⟩, ⟨2, [Comp.target, Comp.position 5]⟩]
      [OutTy.int, OutTy.entity, OutTy.comp CompTy.target, OutTy.bool] 2
      (by decide) rfl).2.2 (by decide)

/-- Witness for C10: adding a fresh object to a world whose ids differ
from the new one, then looking it up, returns it; the counter at 41
yields id 42, distinct from the existing ids 1 and 2. -/
theorem addObject_getObject_roundtrip_witness :
    (World.AddObject ⟨[⟨1, []⟩, ⟨2, []⟩]⟩ ⟨42, [Comp.player]⟩).2 = 42
    ∧ (World.AddObject ⟨[⟨1, []⟩, ⟨2, []⟩]⟩ ⟨42, [Comp.player]⟩).1.GetObject 42 =
      some ⟨42, [Comp.player]⟩
    ∧ (NewObject 41 []).1.entity = 42
    ∧ (⟨1, []⟩ : Object).entity ≠ (NewObject 41 []).1.entity := by
  have h := addObject_getObject_roundtrip ⟨[⟨1, []⟩, ⟨2, []⟩]⟩ ⟨42, [Comp.player]⟩
  refine ⟨h.1, h.2.1 (by decide), ?_, ?_⟩
  · exact (h.2.2 41 []).1.trans (by norm_num)
  · exact (h.2.2 41 []).2 (by norm_num) ⟨1, []⟩ (by decide) (by decide)

end Ecs
